import Mathlib

/-!
Verification development for the `metafactory` library: a shallow embedding
of its value-producing units (`Factory`/`Getter`), metafactories built from
cloneable values and from N-ary closures, and the `Aggregate` builder,
together with proofs of the library's documented properties.

Modelling choices, traced to the source:

* `TypeDef` (crate `typedef`) is an opaque, decidably comparable type
  identity; it is modelled by the inductive `Ty`.
* Runtime values are modelled by a single universal type `Val`; a `Vec<T>`
  produced by an aggregate factory becomes `Val.vec`.
* A closure source (`Rc<RefCell<|args| -> T>>`, files
  `src/from_closure/zeroarg.rs` and `src/from_closure/manyarg.rs`) is a
  shared, interiorly mutable cell.  The cells live in an explicit heap
  (`Heap`, a list of `Clos`); an `Rc` handle is the cell's index.  A
  closure's code is a function from the argument list and the current
  captured state to the produced value and the new captured state;
  `borrow_mut` + call is modelled by `invoke`, which rewrites the cell's
  state in place.
* A `Getter` chain (the boxed capability object inside a `Factory<T>`) is
  modelled by `GetterRep`: a `CloneableValue` (from `src/from_clone/mod.rs`),
  a `GetterScope`/zero-arg closure getter holding the `Rc` index and the
  bound argument factories (from `src/from_closure/*.rs`), or an
  `AggregateGetter` (from `src/aggregate/mod.rs`).
* `Factory::take` becomes `take`, which threads the heap and additionally
  returns the list of closure-cell indices invoked, in invocation order
  (the observable side effects of one `take()` call).
* A type-erased `Box<Any>` holding a `Factory<T>` becomes a pair
  `AnyF = Ty × GetterRep` of the produced type's identity and the getter
  chain; `as_factory_of::<U>` compares the identities.
-/

namespace Metafactory

/-- Type identity (`TypeDef` from the `typedef` crate): opaque, decidably
comparable, stable.  `Ty.vec t` is the identity of `Vec<T>`; `Ty.other n`
covers all further static types. -/
inductive Ty where
  | int : Ty
  | bool : Ty
  | str : Ty
  | vec : Ty → Ty
  | other : Nat → Ty
deriving DecidableEq, Repr

/-- Runtime values, one universal type.  `Val.vec` is the ordered sequence
produced by an aggregate factory. -/
inductive Val where
  | int : Int → Val
  | bool : Bool → Val
  | str : String → Val
  | vec : List Val → Val
  | unitv : Val

/-- One shared closure cell (`Rc<RefCell<|...| -> T>>`): the closure's code
and its current captured state.  The code receives the argument values and
the captured state and returns the produced value and the new captured
state; a pure closure leaves the state unchanged. -/
structure Clos where
  code : List Val → Val → Val × Val
  state : Val

/-- The heap of shared closure cells; an `Rc` handle is an index into it. -/
abbrev Heap := List Clos

/-- `(*(cell.borrow_mut().deref_mut()))(args...)`: look up the cell, run its
code on the argument values and current state, write back the new state. -/
def invoke (h : Heap) (addr : Nat) (args : List Val) : Val × Heap :=
  match h.get? addr with
  | some c =>
    let r := c.code args c.state
    (r.1, h.set addr ⟨c.code, r.2⟩)
  | none => (Val.unitv, h)

/-- The capability object inside a `Factory<T>`:
`cloneable v` is `CloneableValue { value: v }`;
`closure addr args` is a `GetterScope` (or the zero-argument closure getter,
when `args = []`) holding the shared closure cell `addr` and the bound
argument factories in declaration order;
`aggregate cs` is an `AggregateGetter` holding the child factories in
insertion order. -/
inductive GetterRep where
  | cloneable : Val → GetterRep
  | closure : Nat → List GetterRep → GetterRep
  | aggregate : List GetterRep → GetterRep

mutual

/-- `Factory::take` / `Getter::take`: produce a value.  Returns the value,
the heap after the call, and the list of closure-cell indices invoked, in
invocation order.
`cloneable v` clones the stored value (`self.value.clone()`);
`closure addr args` takes every bound argument factory in declaration
order, then calls the shared closure on the results
(`(closure.borrow_mut())(self.a1.take(), ..., self.aN.take())`);
`aggregate cs` takes every child in insertion order and returns the vector
of their outputs (`AggregateGetter::take`). -/
def take : GetterRep → Heap → Val × Heap × List Nat
  | .cloneable v, h => (v, h, [])
  | .closure addr args, h =>
    let ra := takeList args h
    let rc := invoke ra.2.1 addr ra.1
    (rc.1, rc.2, ra.2.2 ++ [addr])
  | .aggregate cs, h =>
    let ra := takeList cs h
    (Val.vec ra.1, ra.2.1, ra.2.2)

/-- Take each unit of a list left to right, threading the heap, collecting
the produced values in order and concatenating the invocation logs. -/
def takeList : List GetterRep → Heap → List Val × Heap × List Nat
  | [], h => ([], h, [])
  | g :: gs, h =>
    let r := take g h
    let rs := takeList gs r.2.1
    (r.1 :: rs.1, rs.2.1, r.2.2 ++ rs.2.2)

end

mutual

/-- `Getter::boxed_clone` (what `Factory::clone` calls):
`CloneableValue` clones the stored value; a `GetterScope` clones every
bound argument factory but only `Rc::clone`s the shared closure cell (the
cell index is kept, not copied); an `AggregateGetter` clones every child. -/
def cloneRep : GetterRep → GetterRep
  | .cloneable v => .cloneable v
  | .closure addr args => .closure addr (cloneReps args)
  | .aggregate cs => .aggregate (cloneReps cs)

/-- Clone each unit of a list. -/
def cloneReps : List GetterRep → List GetterRep
  | [] => []
  | g :: gs => cloneRep g :: cloneReps gs

end

/-- A type-erased `Box<Any>` that holds a `Factory<T>`: the identity of the
produced type `T` together with the getter chain.  (Downcasting a
`Box<Any>` to `Factory<U>` succeeds exactly when the box holds a
`Factory<U>`, i.e. when the stored identity is `U`.) -/
abbrev AnyF := Ty × GetterRep

/-- `AsFactoryExt::as_factory_of::<T>` on a boxed factory (src/lib.rs):
`self.downcast::<Factory<T>>()` succeeds iff the box holds a factory of
exactly that type; failure yields `None`, never a crash. -/
def asFactoryOf (t : Ty) (a : AnyF) : Option GetterRep :=
  if a.1 = t then some a.2 else none

/-- `ArgCountMismatch` (src/error/mod.rs): specified argument count does not
match metafactory argument count. -/
structure ArgCountMismatch where
  expected : Nat
  specified : Nat
deriving DecidableEq, Repr

/-- `ArgTypeMismatch` (src/error/mod.rs): argument type did not match
expected type. -/
structure ArgTypeMismatch where
  expected_type : Ty
  argument_index : Nat
deriving DecidableEq, Repr

/-- `FactoryErrorKind` (src/error/mod.rs). -/
inductive FactoryErrorKind where
  | argCountMismatch : ArgCountMismatch → FactoryErrorKind
  | argTypeMismatch : ArgTypeMismatch → FactoryErrorKind
deriving DecidableEq, Repr

/-- A `MetaFactory` trait object, by source kind:
`cloneableMF t v` is `CloneableMetaFactory { value: v }` for a value of
type `t` (src/from_clone/mod.rs);
`zeroArgMF rt addr` is the `Rc<RefCell<|| -> T>>` cell `addr` of a
zero-argument closure returning `rt` (src/from_closure/zeroarg.rs);
`manyArgMF tys rt addr` is the `Rc<RefCell<|A1,...,AN| -> T>>` cell `addr`
of an N-argument closure with parameter types `tys` (in declaration order)
returning `rt` (src/from_closure/manyarg.rs, arities 1..12).  The type
identities are static (they come from the closure's type parameters), so
they sit in the descriptor, not in the mutable cell. -/
inductive MetaFactoryRep where
  | cloneableMF : Ty → Val → MetaFactoryRep
  | zeroArgMF : Ty → Nat → MetaFactoryRep
  | manyArgMF : List Ty → Ty → Nat → MetaFactoryRep

/-- `MetaFactory::get_type`: the produced type's identity,
`TypeDef::of::<T>()` in every implementation. -/
def MetaFactoryRep.get_type : MetaFactoryRep → Ty
  | .cloneableMF t _ => t
  | .zeroArgMF rt _ => rt
  | .manyArgMF _ rt _ => rt

/-- `MetaFactory::get_arg_types`: one identity per required constructor
argument, in declaration order; empty for both zero-argument sources. -/
def MetaFactoryRep.get_arg_types : MetaFactoryRep → List Ty
  | .cloneableMF _ _ => []
  | .zeroArgMF _ _ => []
  | .manyArgMF tys _ _ => tys

/-- The per-argument loop of `manyarg.rs`'s `MetaFactory::new`: pop each
supplied getter left to right, try `as_factory_of::<A_i>` on it
(`try_unwrap_factory!`), and fail with `ArgTypeMismatch { expected_type,
argument_index }` at the first failure; `i` is the running `arg_index`.
It is only reached after the count check, so the two lists have equal
length and are zipped. -/
def checkArgs : List (Ty × AnyF) → Nat → Except FactoryErrorKind (List GetterRep)
  | [], _ => .ok []
  | (t, a) :: rest, i =>
    match asFactoryOf t a with
    | none => .error (.argTypeMismatch ⟨t, i⟩)
    | some rep => (checkArgs rest (i + 1)).map (rep :: ·)

/-- `MetaFactory::new(&self, arg_getters)`: build a `Factory`, type-erased,
or fail with a typed error.
`CloneableMetaFactory` (src/from_clone/mod.rs) ignores `arg_getters` and
always returns a `CloneableValue` holding a clone of the stored value;
the zero-argument closure (src/from_closure/zeroarg.rs) also ignores
`arg_getters` and always returns the `Rc` cell itself as getter;
the N-argument closure (src/from_closure/manyarg.rs) first compares the
required count with `arg_getters.len()` (`assert_arg_count!`), then
downcasts each argument left to right (`try_unwrap_factory!`), and on
success binds the argument factories, in order, into a `GetterScope`
sharing the closure cell. -/
def MetaFactoryRep.new : MetaFactoryRep → List AnyF → Except FactoryErrorKind AnyF
  | .cloneableMF t v, _ => .ok (t, .cloneable v)
  | .zeroArgMF rt addr, _ => .ok (rt, .closure addr [])
  | .manyArgMF tys rt addr, args =>
    if tys.length ≠ args.length then
      .error (.argCountMismatch ⟨tys.length, args.length⟩)
    else
      (checkArgs (tys.zip args) 0).map fun reps => (rt, .closure addr reps)

/-- The downcast loop inside `Aggregate::new`'s `do_new` closure
(src/aggregate/mod.rs): `items.into_iter().map(|i|
i.downcast::<Factory<T>>().ok().expect(...)).collect()`.  `none` models the
`expect` panic, raised at the first child that is not a `Factory<T>`. -/
def downcastAll (t : Ty) : List AnyF → Option (List GetterRep)
  | [] => some []
  | a :: rest =>
    match asFactoryOf t a with
    | none => none
    | some rep => (downcastAll t rest).map (rep :: ·)

/-- `Aggregate<'a>` (src/aggregate/mod.rs): the element type identity, the
container type identity, and the captured `do_new` closure. -/
structure Aggregate where
  typedef : Ty
  container_typedef : Ty
  do_new : List AnyF → Option AnyF

/-- `Aggregate::new::<T>()`: fixes `typedef = T`, `container_typedef =
Vec<T>`, and captures `do_new`, which downcasts every supplied child to
`Factory<T>` (panicking at the first failure) and wraps the results, in
order, in an `AggregateGetter` inside a `Factory<Vec<T>>`. -/
def Aggregate.new (t : Ty) : Aggregate where
  typedef := t
  container_typedef := Ty.vec t
  do_new := fun items =>
    (downcastAll t items).map fun reps => (Ty.vec t, GetterRep.aggregate reps)

/-- `Aggregate::get_arg_type`. -/
def Aggregate.get_arg_type (a : Aggregate) : Ty := a.typedef

/-- `Aggregate::get_container_type`. -/
def Aggregate.get_container_type (a : Aggregate) : Ty := a.container_typedef

/-- `Aggregate::new_factory(&self, items)`: `(self.do_new).call((items,))`. -/
def Aggregate.new_factory (a : Aggregate) (items : List AnyF) : Option AnyF :=
  a.do_new items

/-- The values returned by `n` successive `take()` calls on one unit
(`take(&self)` leaves the unit itself unchanged; only the heap of shared
closure cells evolves between calls). -/
def takeN : Nat → GetterRep → Heap → List Val
  | 0, _, _ => []
  | n + 1, g, h =>
    let r := take g h
    r.1 :: takeN n g r.2.1

/-- The heap after performing one `take()` on each listed unit in order
(an arbitrary sequence of produce-calls on arbitrary units). -/
def runSeq : List GetterRep → Heap → Heap
  | [], h => h
  | g :: gs, h => runSeq gs (take g h).2.1

mutual

/-- The closure-cell indices a getter chain holds `Rc` handles to — the
shared sources the unit was built from. -/
def addrs : GetterRep → List Nat
  | .cloneable _ => []
  | .closure addr args => addr :: addrsList args
  | .aggregate cs => addrsList cs

/-- Closure-cell indices of a list of units. -/
def addrsList : List GetterRep → List Nat
  | [] => []
  | g :: gs => addrs g ++ addrsList gs

end

/-- A pure closure: invoking it never changes its captured state (a
non-shared-mutable source in the spec's sense; its output therefore depends
only on its arguments and its fixed state). -/
def PureClos (c : Clos) : Prop := ∀ args st, (c.code args st).2 = st

/-- A unit built from pure sources only: every closure cell it holds a
handle to is pure in heap `h`. -/
def PureRep (h : Heap) (g : GetterRep) : Prop :=
  ∀ a ∈ addrs g, ∀ c, h.get? a = some c → PureClos c

/-- All units of a list are built from pure sources only. -/
def PureRepList (h : Heap) (gs : List GetterRep) : Prop :=
  ∀ a ∈ addrsList gs, ∀ c, h.get? a = some c → PureClos c

/-- A sequence of `new` calls against one metafactory: the world is the
descriptor together with the closure-cell heap; `new` takes the descriptor
by shared reference (`&self`) and reads no cell, so each step passes both
on unchanged, recording only the call's result. -/
def newSession (w : MetaFactoryRep × Heap) :
    List (List AnyF) → List (Except FactoryErrorKind AnyF) × MetaFactoryRep × Heap
  | [] => ([], w.1, w.2)
  | args :: rest =>
    let r := w.1.new args
    let s := newSession w rest
    (r :: s.1, s.2)

/-- Example heap: cell 0 is a stateful zero-argument closure that counts
its invocations (`let mut n = 0; move || { n += 1; n }`). -/
def counterHeap : Heap :=
  [⟨fun _ st => match st with
      | Val.int n => (Val.int (n + 1), Val.int (n + 1))
      | _ => (st, st),
    Val.int 0⟩]

/-- The producing unit obtained by instantiating the counter closure. -/
def counterUnit : GetterRep := .closure 0 []

/-- Example heap: cell 0 is a pure zero-argument closure `|| 7`. -/
def constHeap : Heap := [⟨fun _ st => (Val.int 7, st), Val.unitv⟩]

/-- The producing unit obtained by instantiating the constant closure. -/
def constUnit : GetterRep := .closure 0 []

/-- Example heap: cell 0 is a pure two-argument adder `|a, b| a + b`. -/
def adderHeap : Heap :=
  [⟨fun args st => match args with
      | [Val.int a, Val.int b] => (Val.int (a + b), st)
      | _ => (Val.unitv, st),
    Val.unitv⟩]

theorem List.set_get_self {α : Type _} :
    ∀ (l : List α) (n : Nat) (c : α), l.get? n = some c → l.set n c = l := by
  intro l
  induction l with
  | nil => intro n c hc; simp [List.get?] at hc
  | cons x xs ih =>
    intro n c hc
    cases n with
    | zero => simp [List.get?] at hc; simp [List.set, hc]
    | succ m => simp only [List.get?] at hc; simp [List.set, ih m c hc]

theorem pureRep_closure {h : Heap} {addr : Nat} {args : List GetterRep}
    (hp : PureRep h (.closure addr args)) :
    PureRepList h args ∧ (∀ c, h.get? addr = some c → PureClos c) := by
  constructor
  · intro a ha c hc
    exact hp a (by simp [addrs, ha]) c hc
  · intro c hc
    exact hp addr (by simp [addrs]) c hc

theorem pureRepList_cons {h : Heap} {g : GetterRep} {gs : List GetterRep}
    (hp : PureRepList h (g :: gs)) : PureRep h g ∧ PureRepList h gs := by
  constructor
  · intro a ha c hc
    exact hp a (by simp [addrsList, ha]) c hc
  · intro a ha c hc
    exact hp a (by simp [addrsList, ha]) c hc

/-- Invoking a pure closure cell leaves the heap unchanged. -/
theorem invoke_pure {h : Heap} {addr : Nat}
    (hp : ∀ c, h.get? addr = some c → PureClos c) (args : List Val) :
    (invoke h addr args).2 = h := by
  unfold invoke
  cases hc : h.get? addr with
  | none => rfl
  | some c =>
    have hpc := hp c hc
    simp only [hpc args c.state]
    exact List.set_get_self h addr c hc

/-- A take on a unit built only from pure sources leaves the heap
unchanged (joint statement with the list version, by the mutual functional
induction of `take`/`takeList`). -/
theorem take_pure_aux :
    ∀ (g : GetterRep) (h : Heap), PureRep h g → (take g h).2.1 = h := by
  apply take.induct
    (motive_1 := fun g h => PureRep h g → (take g h).2.1 = h)
    (motive_2 := fun gs h => PureRepList h gs → (takeList gs h).2.1 = h)
  · intro v h _
    simp [take]
  · intro addr args h ih hp
    obtain ⟨hargs, haddr⟩ := pureRep_closure hp
    have hl := ih hargs
    simp only [take]
    rw [hl]
    exact invoke_pure haddr _
  · intro cs h ih hp
    have hl := ih (fun a ha c hc => hp a (by simpa [addrs] using ha) c hc)
    simpa [take] using hl
  · intro h _
    simp [takeList]
  · intro g gs h r ih1 ih2 hp
    obtain ⟨hg, hgs⟩ := pureRepList_cons hp
    have h1 := ih1 hg
    simp only [takeList]
    simp only [r] at ih2
    rw [h1] at ih2 ⊢
    exact ih2 hgs

/-- List version of `take_pure_aux`, recovered through the aggregate node. -/
theorem takeList_pure (gs : List GetterRep) (h : Heap)
    (hp : PureRepList h gs) : (takeList gs h).2.1 = h := by
  have := take_pure_aux (.aggregate gs) h
    (fun a ha c hc => hp a (by simpa [addrs] using ha) c hc)
  simpa [take] using this

/-- Cloning is observationally the identity on the getter chain: values are
duplicated and the shared closure cells are kept (only their `Rc` reference
counts change, which is unobservable). -/
theorem cloneRep_id : ∀ g : GetterRep, cloneRep g = g := by
  apply cloneRep.induct
    (motive_1 := fun g => cloneRep g = g)
    (motive_2 := fun gs => cloneReps gs = gs)
  · intro v; rfl
  · intro addr args ih; simp [cloneRep, ih]
  · intro cs ih; simp [cloneRep, ih]
  · rfl
  · intro g gs ih1 ih2; simp [cloneReps, ih1, ih2]

/-- When every supplied argument produces exactly the expected type for its
position, the per-argument downcast loop succeeds and binds the argument
factories in the order supplied. -/
theorem checkArgs_all_ok (args : List AnyF) (i : Nat) :
    checkArgs ((args.map Prod.fst).zip args) i = .ok (args.map Prod.snd) := by
  induction args generalizing i with
  | nil => rfl
  | cons x rest ih =>
    have ih' := ih (i + 1)
    simp only [List.zip] at ih'
    simp [checkArgs, asFactoryOf, Except.map, ih']

/-- When the argument at position `k` does not produce the expected type
but every earlier one does, the downcast loop fails at `k` with the
expected type of slot `k` and running index `i + k`, examining no later
argument. -/
theorem checkArgs_first_bad :
    ∀ (l : List (Ty × AnyF)) (k i : Nat) (hk : k < l.length),
      (l.get ⟨k, hk⟩).2.1 ≠ (l.get ⟨k, hk⟩).1 →
      (∀ j (hj : j < k),
        (l.get ⟨j, Nat.lt_trans hj hk⟩).2.1 = (l.get ⟨j, Nat.lt_trans hj hk⟩).1) →
      checkArgs l i = .error (.argTypeMismatch ⟨(l.get ⟨k, hk⟩).1, i + k⟩) := by
  intro l
  induction l with
  | nil => intro k i hk; exact absurd hk (by simp)
  | cons p rest ih =>
    intro k i hk hbad hgood
    cases k with
    | zero =>
      have hb : p.2.1 ≠ p.1 := hbad
      simp [checkArgs, asFactoryOf, hb]
    | succ m =>
      have hhead : p.2.1 = p.1 := hgood 0 (Nat.succ_pos m)
      have hm : m < rest.length := by simpa using hk
      have htail := ih m (i + 1) hm hbad
        (fun j hj => hgood (j + 1) (Nat.succ_lt_succ hj))
      simp [checkArgs, asFactoryOf, hhead, htail, Except.map]
      omega

/-- When every supplied child produces the element type, the aggregate's
downcast loop succeeds and keeps the children in the order supplied. -/
theorem downcastAll_ok (t : Ty) (items : List AnyF)
    (h : ∀ x ∈ items, x.1 = t) :
    downcastAll t items = some (items.map Prod.snd) := by
  induction items with
  | nil => rfl
  | cons x rest ih =>
    have hx : x.1 = t := h x (by simp)
    simp [downcastAll, asFactoryOf, hx, ih (fun y hy => h y (by simp [hy]))]

/-- When some supplied child does not produce the element type, the
aggregate's downcast loop panics (models the `expect` call). -/
theorem downcastAll_none (t : Ty) (items : List AnyF)
    (h : ∃ x ∈ items, x.1 ≠ t) :
    downcastAll t items = none := by
  induction items with
  | nil =>
    obtain ⟨x, hx, _⟩ := h
    exact absurd hx (by simp)
  | cons y rest ih =>
    by_cases hy : y.1 = t
    · have hr : ∃ x ∈ rest, x.1 ≠ t := by
        obtain ⟨x, hx, hne⟩ := h
        rcases List.mem_cons.mp hx with rfl | hxr
        · exact absurd hy hne
        · exact ⟨x, hxr, hne⟩
      simp [downcastAll, asFactoryOf, hy, ih hr]
    · simp [downcastAll, asFactoryOf, hy]

/-- One outer take of an aggregate produces exactly one value per child. -/
theorem takeList_length (gs : List GetterRep) (h : Heap) :
    (takeList gs h).1.length = gs.length := by
  induction gs generalizing h with
  | nil => rfl
  | cons g rest ih => simp [takeList, ih]

/-- `n` successive takes on a `CloneableValue` unit all return the stored
value, and never touch the heap. -/
theorem takeN_cloneable (n : Nat) (v : Val) (h : Heap) :
    takeN n (.cloneable v) h = List.replicate n v := by
  induction n generalizing h with
  | zero => rfl
  | succ m ih => simp [takeN, take, ih, List.replicate]

/-- A sequence of takes on units built only from pure sources leaves the
heap unchanged. -/
theorem runSeq_pure (seq : List GetterRep) (h : Heap)
    (hp : ∀ g ∈ seq, PureRep h g) : runSeq seq h = h := by
  induction seq with
  | nil => rfl
  | cons g gs ih =>
    have h1 : (take g h).2.1 = h := take_pure_aux g h (hp g (by simp))
    rw [runSeq, h1]
    exact ih (fun g' hg' => hp g' (by simp [hg']))

/-- A successful `new` returns a factory whose erased type identity is the
metafactory's declared result type. -/
theorem new_ok_fst (mf : MetaFactoryRep) (args : List AnyF) (r : AnyF)
    (hok : mf.new args = .ok r) : r.1 = mf.get_type := by
  cases mf with
  | cloneableMF t v =>
    simp only [MetaFactoryRep.new] at hok
    cases hok
    rfl
  | zeroArgMF rt addr =>
    simp only [MetaFactoryRep.new] at hok
    cases hok
    rfl
  | manyArgMF tys rt addr =>
    simp only [MetaFactoryRep.new] at hok
    split at hok
    · exact absurd hok (by simp)
    · cases hc : checkArgs (tys.zip args) 0 with
      | error e => rw [hc] at hok; exact absurd hok (by simp [Except.map])
      | ok reps =>
        rw [hc] at hok
        simp only [Except.map] at hok
        cases hok
        rfl

/-- Unit over the pure constant closure is built from pure sources only. -/
theorem constUnit_pure : PureRep constHeap constUnit := by
  intro a ha c hc
  have ha0 : a = 0 := by simpa [constUnit, addrs, addrsList] using ha
  subst ha0
  have hcell : constHeap.get? 0 = some ⟨fun _ st => (Val.int 7, st), Val.unitv⟩ := rfl
  rw [hcell] at hc
  have : c = ⟨fun _ st => (Val.int 7, st), Val.unitv⟩ := (Option.some.inj hc).symm
  subst this
  intro args st
  rfl

/-- Claim C1: a metafactory built from an N-ary closure (1 ≤ N ≤ 12) given
correctly typed argument producing units instantiates successfully, binding
the argument factories in declaration order into a `GetterScope`; every
`take()` on the resulting unit re-takes each bound argument producer left
to right (their invocation logs appear concatenated in declaration order,
followed by the closure's own cell) and then calls the shared closure on
the current argument outputs.  The production equation holds for every
starting heap — in particular for the heap left behind by any earlier
invocation — so argument producers are re-invoked afresh on every
invocation, with no caching between invocations. -/
theorem manyarg_instantiate_and_produce
    (tys : List Ty) (rt : Ty) (addr : Nat) (args : List AnyF)
    (hn : 1 ≤ tys.length) (hn12 : tys.length ≤ 12)
    (hty : args.map Prod.fst = tys) :
    MetaFactoryRep.new (.manyArgMF tys rt addr) args
      = .ok (rt, .closure addr (args.map Prod.snd))
    ∧ ∀ h : Heap,
        take (.closure addr (args.map Prod.snd)) h
          = ((invoke (takeList (args.map Prod.snd) h).2.1 addr
                (takeList (args.map Prod.snd) h).1).1,
             (invoke (takeList (args.map Prod.snd) h).2.1 addr
                (takeList (args.map Prod.snd) h).1).2,
             (takeList (args.map Prod.snd) h).2.2 ++ [addr]) := by
  constructor
  · subst hty
    have hc := checkArgs_all_ok args 0
    simp only [List.zip] at hc
    simp [MetaFactoryRep.new, List.zip, hc, Except.map]
  · intro h
    rfl

/-- Claim C1 witness: the two-argument adder `|a, b| a + b` instantiated on
cloneable 5 and cloneable 6 binds both arguments and produces 11. -/
theorem manyarg_instantiate_and_produce_witness :
    (MetaFactoryRep.new (.manyArgMF [Ty.int, Ty.int] Ty.int 0)
        [(Ty.int, .cloneable (Val.int 5)), (Ty.int, .cloneable (Val.int 6))]
      = .ok (Ty.int, .closure 0 [.cloneable (Val.int 5), .cloneable (Val.int 6)]))
    ∧ take (.closure 0 [.cloneable (Val.int 5), .cloneable (Val.int 6)]) adderHeap
        = (Val.int 11, adderHeap, [0]) :=
  ⟨(manyarg_instantiate_and_produce [Ty.int, Ty.int] Ty.int 0
      [(Ty.int, .cloneable (Val.int 5)), (Ty.int, .cloneable (Val.int 6))]
      (by decide) (by decide) rfl).1,
   rfl⟩

/-- Claim C2: with a correct-length argument vector, a wrong-typed unit at
position `i` while every earlier position is correctly typed makes `new`
fail with `ArgTypeMismatch` carrying the expected type of parameter `i`
and `argument_index = i`: arguments are checked left to right, the first
(lowest-index) mismatch is reported, and there is no partial result and no
aggregation of later mismatches (the result is this single error). -/
theorem manyarg_first_type_mismatch
    (tys : List Ty) (rt : Ty) (addr : Nat) (args : List AnyF)
    (hn : 1 ≤ tys.length) (hlen : args.length = tys.length)
    (i : Nat) (hi : i < tys.length)
    (hbad : (args.get ⟨i, by omega⟩).1 ≠ tys.get ⟨i, hi⟩)
    (hgood : ∀ j (hj : j < i),
      (args.get ⟨j, by omega⟩).1 = tys.get ⟨j, by omega⟩) :
    MetaFactoryRep.new (.manyArgMF tys rt addr) args
      = .error (.argTypeMismatch ⟨tys.get ⟨i, hi⟩, i⟩) := by
  have hlz : i < (tys.zip args).length := by
    rw [List.length_zip]; omega
  have hget : ∀ (k : Nat) (hk1 : k < tys.length) (hk2 : k < args.length)
      (hkz : k < (tys.zip args).length),
      (tys.zip args).get ⟨k, hkz⟩ = (tys.get ⟨k, hk1⟩, args.get ⟨k, hk2⟩) := by
    intro k hk1 hk2 hkz
    simp [List.get_eq_getElem, List.getElem_zip]
  have hmain := checkArgs_first_bad (tys.zip args) i 0 hlz
    (by rw [hget i hi (by omega) hlz]; exact hbad)
    (by
      intro j hj
      rw [hget j (by omega) (by omega) (Nat.lt_trans hj hlz)]
      exact hgood j hj)
  simp only [MetaFactoryRep.new]
  rw [if_neg (by omega), hmain]
  simp [Except.map, hget i hi (by omega) hlz]

/-- Claim C2 witness: `|a: i8, b: i8, c: i8| ...` supplied an `i8` factory,
then a `bool` factory, then an `i8` factory fails with
`ArgTypeMismatch { expected_type: i8, argument_index: 1 }` (mirrors the
test `should_return_arg_type_mismatch_for_bad_arg_1`). -/
theorem manyarg_first_type_mismatch_witness :
    MetaFactoryRep.new (.manyArgMF [Ty.int, Ty.int, Ty.int] Ty.int 0)
        [(Ty.int, .cloneable (Val.int 1)),
         (Ty.bool, .cloneable (Val.bool true)),
         (Ty.int, .cloneable (Val.int 1))]
      = .error (.argTypeMismatch ⟨Ty.int, 1⟩) :=
  manyarg_first_type_mismatch [Ty.int, Ty.int, Ty.int] Ty.int 0
    [(Ty.int, .cloneable (Val.int 1)),
     (Ty.bool, .cloneable (Val.bool true)),
     (Ty.int, .cloneable (Val.int 1))]
    (by decide) (by decide) 1 (by decide) (by decide) (by decide)

/-- Claim C3 counterexample: a metafactory built from a cloneable value
requires N = 0 arguments, yet instantiating it with a vector of length
k = 1 succeeds instead of failing with
`ArgCountMismatch { expected: 0, specified: 1 }` — the zero-argument
implementations ignore the supplied vector entirely. -/
theorem zero_arity_count_unchecked :
    (MetaFactoryRep.new (.cloneableMF Ty.int (Val.int 5))
        [(Ty.int, .cloneable (Val.int 0))]
      = .ok (Ty.int, .cloneable (Val.int 5)))
    ∧ (MetaFactoryRep.new (.cloneableMF Ty.int (Val.int 5))
        [(Ty.int, .cloneable (Val.int 0))]
      ≠ .error (.argCountMismatch ⟨0, 1⟩)) :=
  ⟨rfl, by simp [MetaFactoryRep.new]⟩

/-- Claim C3 (amended): metafactories built from N-ary function sources
with N ≥ 1 compare the counts before any per-argument validation and fail
with `ArgCountMismatch { expected: N, specified: k }` for every k ≠ N,
regardless of the argument types supplied; the zero-argument sources
(cloneable values and zero-argument closures) ignore the supplied argument
vector and always succeed, so no count check happens there. -/
theorem arg_count_check_policy :
    (∀ (tys : List Ty) (rt : Ty) (addr : Nat) (args : List AnyF),
        1 ≤ tys.length → args.length ≠ tys.length →
        MetaFactoryRep.new (.manyArgMF tys rt addr) args
          = .error (.argCountMismatch ⟨tys.length, args.length⟩))
    ∧ (∀ (t : Ty) (v : Val) (args : List AnyF),
        MetaFactoryRep.new (.cloneableMF t v) args = .ok (t, .cloneable v))
    ∧ (∀ (rt : Ty) (addr : Nat) (args : List AnyF),
        MetaFactoryRep.new (.zeroArgMF rt addr) args
          = .ok (rt, .closure addr [])) := by
  refine ⟨?_, ?_, ?_⟩
  · intro tys rt addr args h1 hk
    simp only [MetaFactoryRep.new]
    rw [if_pos (by omega)]
  · intro t v args; rfl
  · intro rt addr args; rfl

/-- Claim C3 witness: a three-argument closure given two arguments of the
wrong types still reports the count mismatch
`ArgCountMismatch { expected: 3, specified: 2 }` (the count check runs
before any type validation). -/
theorem arg_count_check_policy_witness :
    MetaFactoryRep.new (.manyArgMF [Ty.int, Ty.int, Ty.int] Ty.int 0)
        [(Ty.bool, .cloneable (Val.bool true)), (Ty.str, .cloneable (Val.str "x"))]
      = .error (.argCountMismatch ⟨3, 2⟩) :=
  arg_count_check_policy.1 [Ty.int, Ty.int, Ty.int] Ty.int 0
    [(Ty.bool, .cloneable (Val.bool true)), (Ty.str, .cloneable (Val.str "x"))]
    (by decide) (by decide)

/-- Claim C4: handing an aggregate for element type `t` a list of
producing units of type `t` finalizes to a factory over an
`AggregateGetter` holding the children in insertion order, and every
`take()` on it returns the vector of the children's outputs obtained by
taking each child exactly once, left to right (the sequential `takeList`,
threading the heap and concatenating the children's invocation logs); the
vector's length equals the number of children, and with zero children each
take returns the empty vector. -/
theorem aggregate_finalize_semantics (t : Ty) (items : List AnyF)
    (hty : ∀ x ∈ items, x.1 = t) :
    (Aggregate.new t).new_factory items
      = some (Ty.vec t, .aggregate (items.map Prod.snd))
    ∧ ∀ h : Heap,
        take (.aggregate (items.map Prod.snd)) h
          = (Val.vec (takeList (items.map Prod.snd) h).1,
             (takeList (items.map Prod.snd) h).2.1,
             (takeList (items.map Prod.snd) h).2.2)
        ∧ (takeList (items.map Prod.snd) h).1.length = items.length
        ∧ (items = [] →
            take (.aggregate (items.map Prod.snd)) h = (Val.vec [], h, [])) := by
  refine ⟨?_, fun h => ⟨rfl, ?_, ?_⟩⟩
  · simp [Aggregate.new_factory, Aggregate.new, downcastAll_ok t items hty]
  · rw [takeList_length]; simp
  · intro he; subst he; rfl

/-- Claim C4 witness: children producing 5 and 13 finalize and produce
`[5, 13]` in push order (the spec's own example). -/
theorem aggregate_finalize_semantics_witness :
    ((Aggregate.new Ty.int).new_factory
        [(Ty.int, .cloneable (Val.int 5)), (Ty.int, .cloneable (Val.int 13))]
      = some (Ty.vec Ty.int,
          .aggregate [.cloneable (Val.int 5), .cloneable (Val.int 13)]))
    ∧ take (.aggregate [.cloneable (Val.int 5), .cloneable (Val.int 13)]) []
        = (Val.vec [Val.int 5, Val.int 13], [], []) :=
  ⟨(aggregate_finalize_semantics Ty.int
      [(Ty.int, .cloneable (Val.int 5)), (Ty.int, .cloneable (Val.int 13))]
      (by decide)).1,
   rfl⟩

/-- Claim C5: a cloneable-value metafactory instantiated with the empty
argument vector succeeds, and the resulting unit returns a value equal to
the stored one on the first and on every one of any number of repeated
`take()` calls (idempotent read; the heap is never touched). -/
theorem cloneable_instantiate_idempotent (t : Ty) (v : Val) :
    MetaFactoryRep.new (.cloneableMF t v) [] = .ok (t, .cloneable v)
    ∧ ∀ (h : Heap) (n : Nat),
        takeN n (.cloneable v) h = List.replicate n v
        ∧ take (.cloneable v) h = (v, h, []) :=
  ⟨rfl, fun h n => ⟨takeN_cloneable n v h, rfl⟩⟩

/-- Claim C6: any successful instantiation of any metafactory yields an
erased result that downcasts to a factory of the metafactory's result type
(returning the factory), while downcasting the same erased result to any
other type yields `none` — absence, never a crash. -/
theorem instantiate_downcast_roundtrip
    (mf : MetaFactoryRep) (args : List AnyF) (r : AnyF)
    (hok : mf.new args = .ok r) :
    asFactoryOf mf.get_type r = some r.2
    ∧ ∀ u : Ty, u ≠ mf.get_type → asFactoryOf u r = none := by
  have hf := new_ok_fst mf args r hok
  constructor
  · simp [asFactoryOf, hf]
  · intro u hu
    unfold asFactoryOf
    rw [hf, if_neg (fun hh => hu hh.symm)]

/-- Claim C6 witness: the factory instantiated from `metafactory(5)`
downcasts to type `int` and not to type `bool`. -/
theorem instantiate_downcast_roundtrip_witness :
    asFactoryOf Ty.int (Ty.int, GetterRep.cloneable (Val.int 5))
        = some (GetterRep.cloneable (Val.int 5))
    ∧ asFactoryOf Ty.bool (Ty.int, GetterRep.cloneable (Val.int 5)) = none :=
  ⟨(instantiate_downcast_roundtrip (.cloneableMF Ty.int (Val.int 5)) []
      (Ty.int, .cloneable (Val.int 5)) rfl).1,
   (instantiate_downcast_roundtrip (.cloneableMF Ty.int (Val.int 5)) []
      (Ty.int, .cloneable (Val.int 5)) rfl).2 Ty.bool (by decide)⟩

/-- Claim C7: for a unit built only from pure (non-shared-mutable) sources,
`unit.clone().take() == unit.take()`: the original's take leaves the heap
unchanged, and the clone — which duplicates the value/argument chain and
shares the (pure) closure cells — then produces exactly the same value. -/
theorem clone_take_eq_for_pure_sources (u : GetterRep) (h : Heap)
    (hp : PureRep h u) :
    (take (cloneRep u) ((take u h).2.1)).1 = (take u h).1 := by
  rw [cloneRep_id, take_pure_aux u h hp]

/-- Claim C7 witness: cloning the unit over the pure closure `|| 7` and
taking the clone after the original returns the same value. -/
theorem clone_take_eq_for_pure_sources_witness :
    (take (cloneRep constUnit) ((take constUnit constHeap).2.1)).1
      = (take constUnit constHeap).1 :=
  clone_take_eq_for_pure_sources constUnit constHeap constUnit_pure

/-- Claim C8 counterexample: a clone is not fully independent of the
original.  For the unit over the stateful counter closure
(`let mut n = 0; move || { n += 1; n }`), the clone shares the closure
cell (`boxed_clone` only `Rc::clone`s it), so one invocation performed on
the original changes the value the clone subsequently produces (2 instead
of 1). -/
theorem clone_shares_state_counterexample :
    (take (cloneRep counterUnit) ((take counterUnit counterHeap).2.1)).1
      ≠ (take (cloneRep counterUnit) counterHeap).1 := by
  intro hq
  exact absurd (Val.int.inj hq) (by decide)

/-- Claim C8 (amended): cloning deep-copies the value/argument chain but
shares the underlying closure cells by reference counting, so full
independence holds exactly when the shared sources are pure: after any
sequence of produce-calls on units built only from pure sources (the
original, the clone, or any others), the heap is unchanged and the clone's
take returns exactly what the original returns on the untouched heap. -/
theorem clone_independent_for_pure_sources
    (u : GetterRep) (h : Heap) (seq : List GetterRep)
    (hseq : ∀ g ∈ seq, PureRep h g) :
    runSeq seq h = h
    ∧ take (cloneRep u) (runSeq seq h) = take u h := by
  have hr := runSeq_pure seq h hseq
  exact ⟨hr, by rw [cloneRep_id, hr]⟩

/-- Claim C8 (amended) witness: one take on the pure constant unit leaves
the heap unchanged and the clone then produces the original's value. -/
theorem clone_independent_for_pure_sources_witness :
    runSeq [constUnit] constHeap = constHeap
    ∧ take (cloneRep constUnit) (runSeq [constUnit] constHeap)
        = take constUnit constHeap :=
  clone_independent_for_pure_sources constUnit constHeap [constUnit]
    (by
      intro g hg
      have hg1 : g = constUnit := by simpa using hg
      subst hg1
      exact constUnit_pure)

/-- Claim C9: a metafactory is never mutated after creation and is not
consumed by instantiation: over any sequence of `new` calls, each call's
result is exactly `new` applied to the original descriptor and that call's
own arguments (unaffected by the other calls, so every successful call
yields its producing unit independently), and the descriptor and heap come
out of the session unchanged — in particular the result type and the
argument type list are identical before and after every call. -/
theorem metafactory_immutable_reusable
    (mf : MetaFactoryRep) (h : Heap) (argss : List (List AnyF)) :
    (newSession (mf, h) argss).1 = argss.map mf.new
    ∧ (newSession (mf, h) argss).2 = (mf, h)
    ∧ (newSession (mf, h) argss).2.1.get_type = mf.get_type
    ∧ (newSession (mf, h) argss).2.1.get_arg_types = mf.get_arg_types := by
  have hmain : (newSession (mf, h) argss).1 = argss.map mf.new
      ∧ (newSession (mf, h) argss).2 = (mf, h) := by
    induction argss with
    | nil => exact ⟨rfl, rfl⟩
    | cons a rest ih => simp [newSession, ih.1, ih.2]
  refine ⟨hmain.1, hmain.2, ?_, ?_⟩ <;> rw [hmain.2]

/-- Claim C10: `Aggregate::new_factory` downcasts each supplied child in
order and its only failure mode is the process-crashing `expect` (there is
no typed-error return path — the downcast loop returns the factory or
panics, modelled `none`): when every child is a factory of the element
type it never panics and returns the aggregate factory, and when some
child (the first such) is not, it panics. -/
theorem aggregate_new_factory_panic_policy (t : Ty) (items : List AnyF) :
    ((∀ x ∈ items, x.1 = t) →
      (Aggregate.new t).new_factory items
        = some (Ty.vec t, .aggregate (items.map Prod.snd)))
    ∧ ((∃ x ∈ items, x.1 ≠ t) →
      (Aggregate.new t).new_factory items = none) := by
  constructor
  · intro hall
    simp [Aggregate.new_factory, Aggregate.new, downcastAll_ok t items hall]
  · intro hex
    simp [Aggregate.new_factory, Aggregate.new, downcastAll_none t items hex]

/-- Claim C10 witness: an all-`int` child list never panics and yields the
aggregate factory; a child list with a `bool` child panics. -/
theorem aggregate_new_factory_panic_policy_witness :
    ((Aggregate.new Ty.int).new_factory [(Ty.int, .cloneable (Val.int 5))]
      = some (Ty.vec Ty.int, .aggregate [.cloneable (Val.int 5)]))
    ∧ ((Aggregate.new Ty.int).new_factory
        [(Ty.int, .cloneable (Val.int 5)),
         (Ty.bool, .cloneable (Val.bool true))]
      = none) :=
  ⟨(aggregate_new_factory_panic_policy Ty.int
      [(Ty.int, .cloneable (Val.int 5))]).1 (by decide),
   (aggregate_new_factory_panic_policy Ty.int
      [(Ty.int, .cloneable (Val.int 5)),
       (Ty.bool, .cloneable (Val.bool true))]).2
     ⟨(Ty.bool, .cloneable (Val.bool true)), by simp, by decide⟩⟩

end Metafactory
